import Mathlib

/-!
Shallow embedding of the LED-matrix animation playback engine found in
`examples/led-matrix-painter/sketch/sketch.ino`, together with theorems
settling the specification claims about it.

The sketch keeps file-scoped mutable state:
  static const int MAX_FRAMES = 300;
  static uint32_t animation_buf[MAX_FRAMES][5]; // 4 words + duration
  static int animation_frame_count = 0;
  static volatile bool animation_running = false;
  static volatile int animation_current_frame = 0;
  static unsigned long animation_next_time = 0;
and exposes the handlers `draw`, `load_frame`, `play_animation`,
`stop_animation`, plus the cooperative `animation_tick` run from `loop()`.
All handlers run to completion one at a time, so the program is modelled
as a pure step function on an explicit state record.  `millis()` values
are passed in as explicit `now : Nat` arguments; `unsigned long`
arithmetic on the target is 32-bit, so the deadline addition is reduced
modulo 2^32.  Serial diagnostics have no effect on state and are not
modelled.
-/

namespace LedMatrixPainter

/-- `MAX_FRAMES` from the sketch: fixed capacity of the frame store. -/
def MAX_FRAMES : Nat := 300

/-- Modulus of `uint32_t` / `unsigned long` arithmetic on the target. -/
def UINT32_MOD : Nat := 2 ^ 32

/-- One row of `animation_buf`: 4 bitmap words plus a duration, exactly the
`std::array<uint32_t,5>` payload of `load_frame`. -/
structure Frame where
  w0 : Nat
  w1 : Nat
  w2 : Nat
  w3 : Nat
  duration : Nat
deriving DecidableEq, Repr

/-- The all-zero frame (the initial contents of the static buffer). -/
def zeroFrame : Frame := ⟨0, 0, 0, 0, 0⟩

instance : Inhabited Frame := ⟨zeroFrame⟩

/-- The sketch's animation state: `animation_buf` (as a total map from index
to frame; only indices below `frame_count` are meaningful),
`animation_frame_count`, `animation_running`, `animation_current_frame`
and `animation_next_time`. -/
structure AnimState where
  buf : Nat → Frame
  frame_count : Nat
  running : Bool
  current_frame : Nat
  next_time : Nat

/-- State at boot: empty buffer, count 0, not running. -/
def initState : AnimState :=
  { buf := fun _ => zeroFrame
    frame_count := 0
    running := false
    current_frame := 0
    next_time := 0 }

/-- `load_frame` from the sketch.  The `animation_bytes.empty()` guard in the
source is dead code (`std::array<uint32_t,5>` is never empty) and is omitted.
If `animation_frame_count >= MAX_FRAMES` the handler logs, assigns
`animation_frame_count = MAX_FRAMES` and returns without storing; otherwise it
copies the 5 words into `animation_buf[animation_frame_count]` and increments
the count. -/
def load_frame (s : AnimState) (f : Frame) : AnimState :=
  if s.frame_count ≥ MAX_FRAMES then
    { s with frame_count := MAX_FRAMES }
  else
    { s with
      buf := fun i => if i = s.frame_count then f else s.buf i
      frame_count := s.frame_count + 1 }

/-- `play_animation` from the sketch: unconditionally resets the playback
cursor to 0, sets the running flag, and makes the first frame due now
(`animation_next_time = millis()`). -/
def play_animation (s : AnimState) (now : Nat) : AnimState :=
  { s with current_frame := 0, running := true, next_time := now }

/-- `stop_animation` from the sketch: a no-op (apart from a log line) when not
running, otherwise clears the running flag and resets the frame count. -/
def stop_animation (s : AnimState) : AnimState :=
  if s.running then { s with running := false, frame_count := 0 } else s

/-- Modelled from the spec: the library bit-reversal helper `reverse` called by
`animation_tick` (lines 113–116 of the sketch) is not part of this repository;
per §4.3 it reorders a word bit-for-bit (bit 0 ↔ bit 31, bit 1 ↔ bit 30, …).
`revBits n x` reverses the low `n` bits of `x`, discarding higher bits. -/
def revBits : Nat → Nat → Nat
  | 0, _ => 0
  | n + 1, x => x % 2 * 2 ^ n + revBits n (x / 2)

/-- Modelled from the spec: the Bit Formatter on one 32-bit bitmap word. -/
def reverse (x : Nat) : Nat := revBits 32 x

/-- What one firing of `animation_tick` hands to the display sink
(`matrixWrite(frame)`): the index being rendered together with the four
bit-reversed bitmap words. -/
structure Render where
  idx : Nat
  w0 : Nat
  w1 : Nat
  w2 : Nat
  w3 : Nat
deriving DecidableEq, Repr

/-- The render `animation_tick` emits when it fires on state `s`. -/
def renderOf (s : AnimState) : Render :=
  { idx := s.current_frame
    w0 := reverse (s.buf s.current_frame).w0
    w1 := reverse (s.buf s.current_frame).w1
    w2 := reverse (s.buf s.current_frame).w2
    w3 := reverse (s.buf s.current_frame).w3 }

/-- The deadline a firing tick schedules: `uint32_t interval =
animation_buf[animation_current_frame][4]; if (interval == 0) interval = 1;
animation_next_time = now + interval;` (32-bit `unsigned long` addition). -/
def nextDeadline (s : AnimState) (now : Nat) : Nat :=
  (now + (if (s.buf s.current_frame).duration = 0 then 1
          else (s.buf s.current_frame).duration)) % UINT32_MOD

/-- `animation_tick` from the sketch, at time `now = millis()`.  Returns the
new state plus the render sent to the sink, if any.  Early exits: not running
or zero frames; not yet due.  Otherwise it renders the current frame through
the bit formatter, schedules `animation_next_time = now + interval` with a
1 ms floor on a zero interval, advances the cursor, and on reaching the end
resets to the idle state (`running = false`, `frame_count = 0`,
`current_frame = 0`). -/
def animation_tick (s : AnimState) (now : Nat) : AnimState × Option Render :=
  if s.running = false ∨ s.frame_count = 0 then (s, none)
  else if now < s.next_time then (s, none)
  else if s.current_frame + 1 ≥ s.frame_count then
    ({ s with running := false, frame_count := 0, current_frame := 0,
              next_time := nextDeadline s now }, some (renderOf s))
  else
    ({ s with current_frame := s.current_frame + 1,
              next_time := nextDeadline s now }, some (renderOf s))

/-- The `draw` handler from the sketch.  It touches no animation state; an
empty byte buffer is logged and dropped, anything else is forwarded verbatim
to `matrix.draw`.  The returned option is the buffer handed to the sink. -/
def draw (s : AnimState) (frame : List Nat) : AnimState × Option (List Nat) :=
  if frame.isEmpty then (s, none) else (s, some frame)

/-- One bridge-dispatched operation (the RPC surface of the sketch relevant
to the animation engine) or one `loop()` iteration's tick. -/
inductive Op where
  | load (f : Frame)
  | play (now : Nat)
  | stop
  | tick (now : Nat)
deriving Repr

/-- One run-to-completion step of the cooperative loop. -/
def stepOp (s : AnimState) : Op → AnimState × Option Render
  | .load f => (load_frame s f, none)
  | .play now => (play_animation s now, none)
  | .stop => (stop_animation s, none)
  | .tick now => animation_tick s now

/-- Run a sequence of operations, collecting the renders sent to the sink in
order. -/
def runTrace : AnimState → List Op → AnimState × List Render
  | s, [] => (s, [])
  | s, op :: ops =>
    let p := stepOp s op
    let q := runTrace p.1 ops
    (q.1, p.2.toList ++ q.2)

/-- Load a list of frames in order (a sequence of `load_frame` calls). -/
def loadList (s : AnimState) (fs : List Frame) : AnimState :=
  fs.foldl load_frame s

/-- Run a sequence of ticks at the given instants. -/
def runTicks (s : AnimState) (ts : List Nat) : AnimState × List Render :=
  runTrace s (ts.map Op.tick)

/-! ### Bit-reversal lemmas -/

lemma revBits_lt (n x : Nat) : revBits n x < 2 ^ n := by
  induction n generalizing x with
  | zero => simp [revBits]
  | succ n ih =>
    have hx : x % 2 ≤ 1 := by omega
    have := ih (x / 2)
    calc revBits (n + 1) x = x % 2 * 2 ^ n + revBits n (x / 2) := rfl
      _ < 2 ^ (n + 1) := by
          have : x % 2 * 2 ^ n ≤ 2 ^ n := by
            calc x % 2 * 2 ^ n ≤ 1 * 2 ^ n := by
                  exact Nat.mul_le_mul_right _ hx
              _ = 2 ^ n := by ring
          have h2 : 2 ^ (n + 1) = 2 ^ n + 2 ^ n := by ring
          omega

lemma revBits_top (n : Nat) : ∀ b y : Nat, b ≤ 1 → y < 2 ^ n →
    revBits (n + 1) (b * 2 ^ n + y) = revBits n y * 2 + b := by
  induction n with
  | zero =>
    intro b y hb hy
    interval_cases y
    interval_cases b <;> simp [revBits]
  | succ n ih =>
    intro b y hb hy
    have h2 : 2 ^ (n + 1) = 2 ^ n * 2 := by ring
    have hb2 : b * 2 ^ (n + 1) = b * 2 ^ n * 2 := by rw [h2]; ring
    have hmod : (b * 2 ^ (n + 1) + y) % 2 = y % 2 := by
      omega
    have hdiv : (b * 2 ^ (n + 1) + y) / 2 = b * 2 ^ n + y / 2 := by
      omega
    have hy2 : y / 2 < 2 ^ n := by
      have h2 : 2 ^ (n + 1) = 2 ^ n * 2 := by ring
      omega
    calc revBits (n + 2) (b * 2 ^ (n + 1) + y)
        = (b * 2 ^ (n + 1) + y) % 2 * 2 ^ (n + 1)
            + revBits (n + 1) ((b * 2 ^ (n + 1) + y) / 2) := rfl
      _ = y % 2 * 2 ^ (n + 1) + revBits (n + 1) (b * 2 ^ n + y / 2) := by
          rw [hmod, hdiv]
      _ = y % 2 * 2 ^ (n + 1) + (revBits n (y / 2) * 2 + b) := by
          rw [ih b (y / 2) hb hy2]
      _ = (y % 2 * 2 ^ n + revBits n (y / 2)) * 2 + b := by ring
      _ = revBits (n + 1) y * 2 + b := rfl

lemma revBits_revBits (n : Nat) : ∀ x : Nat, x < 2 ^ n →
    revBits n (revBits n x) = x := by
  induction n with
  | zero =>
    intro x hx
    interval_cases x
    simp [revBits]
  | succ n ih =>
    intro x hx
    have hb : x % 2 ≤ 1 := by omega
    have hy : revBits n (x / 2) < 2 ^ n := revBits_lt n (x / 2)
    have hx2 : x / 2 < 2 ^ n := by
      have h2 : 2 ^ (n + 1) = 2 ^ n * 2 := by ring
      omega
    calc revBits (n + 1) (revBits (n + 1) x)
        = revBits (n + 1) (x % 2 * 2 ^ n + revBits n (x / 2)) := rfl
      _ = revBits n (revBits n (x / 2)) * 2 + x % 2 :=
          revBits_top n (x % 2) (revBits n (x / 2)) hb hy
      _ = x / 2 * 2 + x % 2 := by rw [ih (x / 2) hx2]
      _ = x := by omega

/-! ### Small step lemmas -/

lemma runTrace_nil (s : AnimState) : runTrace s [] = (s, []) := rfl

lemma runTrace_cons (s : AnimState) (op : Op) (ops : List Op) :
    runTrace s (op :: ops) =
      ((runTrace (stepOp s op).1 ops).1,
        (stepOp s op).2.toList ++ (runTrace (stepOp s op).1 ops).2) := rfl

lemma tick_noop (s : AnimState) (now : Nat)
    (h : s.running = false ∨ s.frame_count = 0 ∨ now < s.next_time) :
    animation_tick s now = (s, none) := by
  unfold animation_tick
  rcases h with h | h | h
  · rw [if_pos (Or.inl h)]
  · rw [if_pos (Or.inr h)]
  · by_cases h0 : s.running = false ∨ s.frame_count = 0
    · rw [if_pos h0]
    · rw [if_neg h0, if_pos h]

lemma runTicks_inert (ts : List Nat) (s : AnimState)
    (h : s.running = false ∨ s.frame_count = 0) :
    runTicks s ts = (s, []) := by
  induction ts with
  | nil => rfl
  | cons t ts ih =>
    have hstep : stepOp s (Op.tick t) = (s, none) :=
      tick_noop s t (h.imp id Or.inl)
    show runTrace s (Op.tick t :: ts.map Op.tick) = (s, [])
    rw [runTrace_cons, hstep]
    simpa [runTicks] using ih

lemma ite_duration_eq_max (d : Nat) : (if d = 0 then 1 else d) = max d 1 := by
  rcases d with _ | n
  · simp
  · simp only [Nat.succ_ne_zero, if_false]
    omega

/-! ### Reachability invariant -/

/-- The state invariant maintained by every handler: the frame count never
exceeds the capacity, and while running the cursor is inside the stored
frames (except in the playing-an-empty-store state, where it is pinned
at 0). -/
def Inv (s : AnimState) : Prop :=
  s.frame_count ≤ MAX_FRAMES ∧
    (s.running = true →
      s.current_frame < s.frame_count ∨
        (s.frame_count = 0 ∧ s.current_frame = 0))

lemma inv_init : Inv initState := by
  unfold Inv initState
  simp

lemma inv_load (s : AnimState) (f : Frame) (h : Inv s) : Inv (load_frame s f) := by
  obtain ⟨buf, fc, run, cur, nt⟩ := s
  obtain ⟨h1, h2⟩ := h
  unfold Inv load_frame MAX_FRAMES at *
  dsimp only at *
  by_cases hge : fc ≥ 300
  · rw [if_pos hge]
    dsimp only
    refine ⟨le_refl _, fun hr => ?_⟩
    have := h2 hr
    omega
  · rw [if_neg hge]
    dsimp only
    refine ⟨by omega, fun hr => ?_⟩
    have := h2 hr
    omega

lemma inv_play (s : AnimState) (now : Nat) (h : Inv s) :
    Inv (play_animation s now) := by
  obtain ⟨buf, fc, run, cur, nt⟩ := s
  unfold Inv play_animation at *
  dsimp only at *
  exact ⟨h.1, fun _ => by omega⟩

lemma inv_stop (s : AnimState) (h : Inv s) : Inv (stop_animation s) := by
  obtain ⟨buf, fc, run, cur, nt⟩ := s
  unfold Inv stop_animation at *
  dsimp only at *
  cases run with
  | false => simpa using h
  | true =>
    rw [if_pos rfl]
    dsimp only
    exact ⟨by omega, by simp⟩

lemma inv_tick (s : AnimState) (now : Nat) (h : Inv s) :
    Inv (animation_tick s now).1 := by
  by_cases h1 : s.running = false ∨ s.frame_count = 0
  · rw [tick_noop s now (h1.imp id Or.inl)]
    exact h
  · by_cases h2 : now < s.next_time
    · rw [tick_noop s now (Or.inr (Or.inr h2))]
      exact h
    · obtain ⟨buf, fc, run, cur, nt⟩ := s
      unfold Inv animation_tick at *
      dsimp only at *
      rw [if_neg h1, if_neg h2]
      by_cases h3 : cur + 1 ≥ fc
      · rw [if_pos h3]
        dsimp only
        exact ⟨by omega, by simp⟩
      · rw [if_neg h3]
        dsimp only
        refine ⟨h.1, fun _ => Or.inl (by omega)⟩

lemma inv_stepOp (s : AnimState) (op : Op) (h : Inv s) : Inv (stepOp s op).1 := by
  cases op with
  | load f => exact inv_load s f h
  | play now => exact inv_play s now h
  | stop => exact inv_stop s h
  | tick now => exact inv_tick s now h

lemma inv_runTrace (ops : List Op) : ∀ s : AnimState, Inv s →
    Inv (runTrace s ops).1 := by
  induction ops with
  | nil => intro s h; exact h
  | cons op ops ih =>
    intro s h
    rw [runTrace_cons]
    exact ih _ (inv_stepOp s op h)

lemma tick_render_bound (s : AnimState) (now : Nat) (r : Render) (h : Inv s)
    (hr : (animation_tick s now).2 = some r) : r.idx < MAX_FRAMES := by
  by_cases h1 : s.running = false ∨ s.frame_count = 0
  · rw [tick_noop s now (h1.imp id Or.inl)] at hr
    simp at hr
  · by_cases h2 : now < s.next_time
    · rw [tick_noop s now (Or.inr (Or.inr h2))] at hr
      simp at hr
    · have hrun : s.running = true := by
        cases hb : s.running with
        | false => exact absurd (Or.inl hb) h1
        | true => rfl
      have hfc : s.frame_count ≠ 0 := fun hz => h1 (Or.inr hz)
      have hcur : s.current_frame < s.frame_count := by
        rcases h.2 hrun with hlt | ⟨hz, _⟩
        · exact hlt
        · exact absurd hz hfc
      have hreq : r = renderOf s := by
        unfold animation_tick at hr
        rw [if_neg h1, if_neg h2] at hr
        by_cases h3 : s.current_frame + 1 ≥ s.frame_count
        · rw [if_pos h3] at hr
          exact (Option.some_inj.mp hr).symm
        · rw [if_neg h3] at hr
          exact (Option.some_inj.mp hr).symm
      rw [hreq]
      show s.current_frame < MAX_FRAMES
      exact lt_of_lt_of_le hcur h.1

lemma trace_render_bound (ops : List Op) : ∀ s : AnimState, Inv s →
    ∀ r ∈ (runTrace s ops).2, r.idx < MAX_FRAMES := by
  induction ops with
  | nil => intro s _ r hr; simp [runTrace] at hr
  | cons op ops ih =>
    intro s h r hr
    rw [runTrace_cons] at hr
    rcases List.mem_append.mp hr with hr | hr
    · cases op with
      | load f => simp [stepOp] at hr
      | play now => simp [stepOp] at hr
      | stop => simp [stepOp] at hr
      | tick now =>
        rcases Option.mem_toList.mp hr with hsome
        exact tick_render_bound s now r h (by simpa [stepOp] using hsome)
    · exact ih _ (inv_stepOp s op h) r hr

/-! ### Claim theorems -/

/-- C8: the Bit Formatter (per-word bit reversal `reverse`, modelled from the
spec since the library function is not part of this repository) is an
involution: applying it twice to any 32-bit word returns the word. -/
theorem claim_C8 (x : Nat) (hx : x < UINT32_MOD) : reverse (reverse x) = x :=
  revBits_revBits 32 x hx

/-- C8 witness: the involution evaluated at the concrete word 0xABCD1234. -/
theorem claim_C8_witness :
    0xABCD1234 < UINT32_MOD ∧ reverse (reverse 0xABCD1234) = 0xABCD1234 :=
  ⟨by decide, claim_C8 0xABCD1234 (by decide)⟩

/-- C9: `draw` never mutates the animation state; an empty buffer produces no
render (it is only logged), and a non-empty buffer is forwarded verbatim to
the display sink. -/
theorem claim_C9 (s : AnimState) (frame : List Nat) :
    (draw s frame).1 = s ∧
      (draw s frame).2 = (if frame.isEmpty then none else some frame) := by
  unfold draw
  by_cases h : frame.isEmpty <;> simp [h]

/-- C10: `play_animation`, invoked in any state (including mid-playback),
unconditionally resets the cursor to frame 0, sets the running flag, makes the
first frame due immediately, and leaves the stored frames and their count
untouched — a play request during playback restarts from frame 0. -/
theorem claim_C10 (s : AnimState) (now : Nat) :
    (play_animation s now).running = true ∧
      (play_animation s now).current_frame = 0 ∧
      (play_animation s now).next_time = now ∧
      (play_animation s now).frame_count = s.frame_count ∧
      (play_animation s now).buf = s.buf :=
  ⟨rfl, rfl, rfl, rfl, rfl⟩

/-- C5: the tick is a pure no-op (state unchanged, nothing rendered) whenever
the engine is not running, or no frames are stored, or the deadline has not
arrived; and after `play_animation` in a state with zero frames loaded, every
sequence of ticks leaves the state untouched and renders nothing (in
particular no frame-buffer index is ever read). -/
theorem claim_C5 :
    (∀ (s : AnimState) (now : Nat),
        s.running = false ∨ s.frame_count = 0 ∨ now < s.next_time →
        animation_tick s now = (s, none)) ∧
    (∀ (s : AnimState) (t0 : Nat) (ts : List Nat), s.frame_count = 0 →
        runTicks (play_animation s t0) ts = (play_animation s t0, [])) := by
  refine ⟨tick_noop, ?_⟩
  intro s t0 ts h
  exact runTicks_inert ts _ (Or.inr h)

/-- C5 witness: the no-op cases evaluated concretely — a tick on the boot
state, and a tick sequence after playing an empty store. -/
theorem claim_C5_witness :
    (initState.running = false ∧ animation_tick initState 3 = (initState, none)) ∧
    (initState.frame_count = 0 ∧
      runTicks (play_animation initState 0) [0, 7] =
        (play_animation initState 0, [])) :=
  ⟨⟨rfl, claim_C5.1 initState 3 (Or.inl rfl)⟩,
    ⟨rfl, claim_C5.2 initState 0 [0, 7] rfl⟩⟩

/-- C6: on a due tick (running, frames present, deadline reached) the frame at
the cursor is rendered — even one with `duration_ms = 0` — and the next
deadline is `now + max duration 1`, provided the 32-bit addition does not
wrap; the cursor then advances (or playback finishes when it was the last
frame). -/
theorem claim_C6 (s : AnimState) (now : Nat)
    (hrun : s.running = true) (hfc : s.frame_count ≠ 0)
    (hdue : s.next_time ≤ now)
    (hnowrap : now + max (s.buf s.current_frame).duration 1 < UINT32_MOD) :
    (animation_tick s now).2 = some (renderOf s) ∧
      (animation_tick s now).1.next_time =
        now + max (s.buf s.current_frame).duration 1 ∧
      ((animation_tick s now).1.current_frame = s.current_frame + 1 ∨
        ((animation_tick s now).1.running = false ∧
          (animation_tick s now).1.current_frame = 0)) := by
  have h0 : ¬(s.running = false ∨ s.frame_count = 0) := by
    simp [hrun, hfc]
  have h1 : ¬ now < s.next_time := by omega
  have hmod : nextDeadline s now = now + max (s.buf s.current_frame).duration 1 := by
    unfold nextDeadline
    rw [ite_duration_eq_max]
    exact Nat.mod_eq_of_lt hnowrap
  unfold animation_tick
  rw [if_neg h0, if_neg h1]
  by_cases hlast : s.current_frame + 1 ≥ s.frame_count
  · rw [if_pos hlast]
    exact ⟨rfl, hmod, Or.inr ⟨rfl, rfl⟩⟩
  · rw [if_neg hlast]
    exact ⟨rfl, hmod, Or.inl rfl⟩

/-- C6 witness: a single zero-duration frame, played and ticked at t = 7: it
is rendered and the next deadline is 8 = 7 + max 0 1. -/
theorem claim_C6_witness :
    ((play_animation (load_frame initState ⟨1, 2, 3, 4, 0⟩) 7).running = true ∧
      (play_animation (load_frame initState ⟨1, 2, 3, 4, 0⟩) 7).frame_count ≠ 0 ∧
      (play_animation (load_frame initState ⟨1, 2, 3, 4, 0⟩) 7).next_time ≤ 7 ∧
      7 + max ((play_animation (load_frame initState ⟨1, 2, 3, 4, 0⟩) 7).buf
          (play_animation (load_frame initState ⟨1, 2, 3, 4, 0⟩)
            7).current_frame).duration 1 < UINT32_MOD) ∧
    ((animation_tick (play_animation (load_frame initState ⟨1, 2, 3, 4, 0⟩) 7)
          7).2 =
        some (renderOf (play_animation (load_frame initState ⟨1, 2, 3, 4, 0⟩) 7)) ∧
      (animation_tick (play_animation (load_frame initState ⟨1, 2, 3, 4, 0⟩) 7)
            7).1.next_time =
        7 + max ((play_animation (load_frame initState ⟨1, 2, 3, 4, 0⟩) 7).buf
          (play_animation (load_frame initState ⟨1, 2, 3, 4, 0⟩)
            7).current_frame).duration 1 ∧
      ((animation_tick (play_animation (load_frame initState ⟨1, 2, 3, 4, 0⟩) 7)
              7).1.current_frame =
          (play_animation (load_frame initState ⟨1, 2, 3, 4, 0⟩)
            7).current_frame + 1 ∨
        ((animation_tick (play_animation (load_frame initState ⟨1, 2, 3, 4, 0⟩)
              7) 7).1.running = false ∧
          (animation_tick (play_animation (load_frame initState ⟨1, 2, 3, 4, 0⟩)
              7) 7).1.current_frame = 0))) :=
  ⟨⟨rfl, by decide, by decide, by decide⟩,
    claim_C6 (play_animation (load_frame initState ⟨1, 2, 3, 4, 0⟩) 7) 7
      rfl (by decide) (by decide) (by decide)⟩

lemma set_fc_eq (s : AnimState) (h : s.frame_count = MAX_FRAMES) :
    ({ s with frame_count := MAX_FRAMES } : AnimState) = s := by
  obtain ⟨buf, fc, run, cur, nt⟩ := s
  dsimp only at h
  rw [← h]

/-- C2: in every state reachable from boot, `frame_count ≤ MAX_FRAMES` (the
lower bound `0 ≤ frame_count` is inherent in the `Nat` model of the
non-negative counter); `load_frame` writes no buffer index other than
`frame_count`, and stores there (incrementing the count) exactly when
`frame_count < MAX_FRAMES`, leaving the buffer untouched otherwise; and every
render ever emitted reads an index below `MAX_FRAMES`, so frames submitted
beyond capacity are absent from playback. -/
theorem claim_C2 :
    (∀ ops : List Op, (runTrace initState ops).1.frame_count ≤ MAX_FRAMES) ∧
    (∀ (s : AnimState) (f : Frame) (i : Nat), i ≠ s.frame_count →
        (load_frame s f).buf i = s.buf i) ∧
    (∀ (s : AnimState) (f : Frame), s.frame_count < MAX_FRAMES →
        (load_frame s f).buf s.frame_count = f ∧
          (load_frame s f).frame_count = s.frame_count + 1) ∧
    (∀ (s : AnimState) (f : Frame), s.frame_count ≥ MAX_FRAMES →
        (load_frame s f).buf = s.buf) ∧
    (∀ (ops : List Op), ∀ r ∈ (runTrace initState ops).2,
        r.idx < MAX_FRAMES) := by
  refine ⟨?_, ?_, ?_, ?_, ?_⟩
  · intro ops
    exact (inv_runTrace ops initState inv_init).1
  · intro s f i hi
    unfold load_frame
    by_cases hge : s.frame_count ≥ MAX_FRAMES
    · rw [if_pos hge]
    · rw [if_neg hge]
      dsimp only
      rw [if_neg hi]
  · intro s f hlt
    unfold load_frame
    rw [if_neg (by omega)]
    dsimp only
    exact ⟨by rw [if_pos rfl], rfl⟩
  · intro s f hge
    unfold load_frame
    rw [if_pos hge]
  · intro ops r hr
    exact trace_render_bound ops initState inv_init r hr

/-- C2 witness: the conjuncts applied at concrete inputs — one load from
boot, a non-written index, a store below capacity, a rejected store at
capacity, and the one render of a load–play–tick run. -/
theorem claim_C2_witness :
    ((runTrace initState [Op.load ⟨1, 2, 3, 4, 5⟩]).1.frame_count ≤ MAX_FRAMES) ∧
    (3 ≠ initState.frame_count ∧
      (load_frame initState ⟨1, 2, 3, 4, 5⟩).buf 3 = initState.buf 3) ∧
    (initState.frame_count < MAX_FRAMES ∧
      (load_frame initState ⟨1, 2, 3, 4, 5⟩).buf initState.frame_count =
        ⟨1, 2, 3, 4, 5⟩ ∧
      (load_frame initState ⟨1, 2, 3, 4, 5⟩).frame_count =
        initState.frame_count + 1) ∧
    ({ initState with frame_count := MAX_FRAMES }.frame_count ≥ MAX_FRAMES ∧
      (load_frame { initState with frame_count := MAX_FRAMES }
          ⟨1, 2, 3, 4, 5⟩).buf =
        { initState with frame_count := MAX_FRAMES }.buf) ∧
    ((⟨0, reverse 1, reverse 2, reverse 3, reverse 4⟩ : Render) ∈
        (runTrace initState
          [Op.load ⟨1, 2, 3, 4, 5⟩, Op.play 0, Op.tick 0]).2 ∧
      (⟨0, reverse 1, reverse 2, reverse 3, reverse 4⟩ : Render).idx <
        MAX_FRAMES) :=
  ⟨claim_C2.1 [Op.load ⟨1, 2, 3, 4, 5⟩],
    ⟨by decide, claim_C2.2.1 initState ⟨1, 2, 3, 4, 5⟩ 3 (by decide)⟩,
    ⟨by decide, claim_C2.2.2.1 initState ⟨1, 2, 3, 4, 5⟩ (by decide)⟩,
    ⟨by decide, claim_C2.2.2.2.1 { initState with frame_count := MAX_FRAMES }
      ⟨1, 2, 3, 4, 5⟩ (by decide)⟩,
    ⟨by decide, claim_C2.2.2.2.2
      [Op.load ⟨1, 2, 3, 4, 5⟩, Op.play 0, Op.tick 0]
      ⟨0, reverse 1, reverse 2, reverse 3, reverse 4⟩ (by decide)⟩⟩

/-- C3 counterexample: `play_animation` on the boot state (zero frames
loaded) is a reachable state with `running = true` in which
`current_index < frame_count` fails (`0 < 0`). -/
theorem claim_C3_counterexample :
    (runTrace initState [Op.play 0]).1.running = true ∧
      ¬ ((runTrace initState [Op.play 0]).1.current_frame <
          (runTrace initState [Op.play 0]).1.frame_count) := by
  decide

/-- C3 (amended): in every state reachable by any interleaving of the four
operations, whenever `running = true`, either the store is empty
(`frame_count = 0`, the play-with-no-frames state, where the cursor is 0 and
the tick never fires) or `current_index < frame_count`. -/
theorem claim_C3 (ops : List Op)
    (hrun : (runTrace initState ops).1.running = true) :
    (runTrace initState ops).1.frame_count = 0 ∨
      (runTrace initState ops).1.current_frame <
        (runTrace initState ops).1.frame_count := by
  rcases (inv_runTrace ops initState inv_init).2 hrun with hlt | ⟨hz, _⟩
  · exact Or.inr hlt
  · exact Or.inl hz

/-- C3 witness: the amended invariant after loading one frame and playing. -/
theorem claim_C3_witness :
    (runTrace initState [Op.load ⟨1, 2, 3, 4, 5⟩, Op.play 0]).1.running = true ∧
      ((runTrace initState [Op.load ⟨1, 2, 3, 4, 5⟩, Op.play 0]).1.frame_count = 0 ∨
        (runTrace initState [Op.load ⟨1, 2, 3, 4, 5⟩, Op.play 0]).1.current_frame <
          (runTrace initState [Op.load ⟨1, 2, 3, 4, 5⟩, Op.play 0]).1.frame_count) :=
  ⟨by decide, claim_C3 [Op.load ⟨1, 2, 3, 4, 5⟩, Op.play 0] (by decide)⟩

/-- C4: calling `load_frame` in any reachable state that is at capacity
leaves the state exactly as it was: the frame is not stored, the count,
buffer and playback fields are unchanged (the handler's
`animation_frame_count = MAX_FRAMES` assignment is the identity there, since
reachable counts never exceed the capacity). -/
theorem claim_C4 (ops : List Op) (f : Frame)
    (h : MAX_FRAMES ≤ (runTrace initState ops).1.frame_count) :
    load_frame (runTrace initState ops).1 f = (runTrace initState ops).1 := by
  have hinv := inv_runTrace ops initState inv_init
  have heq : (runTrace initState ops).1.frame_count = MAX_FRAMES :=
    le_antisymm hinv.1 h
  unfold load_frame
  rw [if_pos h]
  exact set_fc_eq _ heq

set_option maxRecDepth 8000 in
/-- C4 witness: after 300 loads the store is at capacity and a further load
returns the state unchanged. -/
theorem claim_C4_witness :
    MAX_FRAMES ≤
        (runTrace initState (List.replicate 300 (Op.load zeroFrame))).1.frame_count ∧
      load_frame (runTrace initState (List.replicate 300 (Op.load zeroFrame))).1
          zeroFrame =
        (runTrace initState (List.replicate 300 (Op.load zeroFrame))).1 :=
  ⟨by decide, claim_C4 (List.replicate 300 (Op.load zeroFrame)) zeroFrame
    (by decide)⟩

/-- C7: loading 3 frames with durations [100, 200, 300] ms, playing at t = 0
and ticking at t = 0, 100, 300, 600 renders frame 0 at t = 0, frame 1 at
t = 100 and frame 2 at t = 300; from the t = 300 tick on (so in particular by
t = 600) the engine is idle with `frame_count = 0` and `current_index = 0`,
and the t = 600 tick renders nothing. -/
theorem claim_C7 :
    (let s1 := play_animation (loadList initState
        [⟨1, 2, 3, 4, 100⟩, ⟨5, 6, 7, 8, 200⟩, ⟨9, 10, 11, 12, 300⟩]) 0
     let p0 := animation_tick s1 0
     let p1 := animation_tick p0.1 100
     let p2 := animation_tick p1.1 300
     let p3 := animation_tick p2.1 600
     p0.2 = some ⟨0, reverse 1, reverse 2, reverse 3, reverse 4⟩ ∧
     p1.2 = some ⟨1, reverse 5, reverse 6, reverse 7, reverse 8⟩ ∧
     p2.2 = some ⟨2, reverse 9, reverse 10, reverse 11, reverse 12⟩ ∧
     p2.1.running = false ∧ p2.1.frame_count = 0 ∧ p2.1.current_frame = 0 ∧
     p3.2 = none ∧ p3.1.running = false ∧ p3.1.frame_count = 0 ∧
     p3.1.current_frame = 0) := by
  decide

/-! ### Playback-order machinery for the end-to-end ingestion claim -/

/-- The render the sink is expected to receive for frame `i` of an ingestion
list `fs`: index `i` with the four bitmap words of `fs[i]` bit-reversed. -/
def expRender (fs : List Frame) (i : Nat) : Render :=
  { idx := i
    w0 := reverse (fs.getD i zeroFrame).w0
    w1 := reverse (fs.getD i zeroFrame).w1
    w2 := reverse (fs.getD i zeroFrame).w2
    w3 := reverse (fs.getD i zeroFrame).w3 }

/-- `expFrom fs c k`: the expected renders of frames `c, c+1, …, c+k-1`. -/
def expFrom (fs : List Frame) : Nat → Nat → List Render
  | _, 0 => []
  | c, k + 1 => expRender fs c :: expFrom fs (c + 1) k

/-- The buffer of `s` holds the frames of `fs` at indices `0..fs.length-1`. -/
def Agrees (fs : List Frame) (s : AnimState) : Prop :=
  ∀ i, i < fs.length → s.buf i = fs.getD i zeroFrame

lemma load_frame_store (s : AnimState) (f : Frame)
    (h : ¬ s.frame_count ≥ MAX_FRAMES) :
    load_frame s f =
      { s with
        buf := fun i => if i = s.frame_count then f else s.buf i
        frame_count := s.frame_count + 1 } := by
  unfold load_frame
  rw [if_neg h]

lemma loadList_spec : ∀ (fs : List Frame) (s : AnimState),
    s.frame_count + fs.length ≤ MAX_FRAMES →
    (loadList s fs).frame_count = s.frame_count + fs.length ∧
    (loadList s fs).running = s.running ∧
    (loadList s fs).current_frame = s.current_frame ∧
    (loadList s fs).next_time = s.next_time ∧
    (∀ i, i < s.frame_count → (loadList s fs).buf i = s.buf i) ∧
    (∀ j, j < fs.length →
      (loadList s fs).buf (s.frame_count + j) = fs.getD j zeroFrame) := by
  intro fs
  induction fs with
  | nil =>
    intro s h
    exact ⟨rfl, rfl, rfl, rfl, fun i _ => rfl, fun j hj => by simp at hj⟩
  | cons f fs ih =>
    intro s h
    have hlc : (f :: fs).length = fs.length + 1 := List.length_cons f fs
    have hlt : ¬ s.frame_count ≥ MAX_FRAMES := by omega
    have hload := load_frame_store s f hlt
    have hfc : (load_frame s f).frame_count = s.frame_count + 1 := by
      rw [hload]
    have hbuf : ∀ i, (load_frame s f).buf i =
        if i = s.frame_count then f else s.buf i := by
      intro i
      rw [hload]
    have hstep : loadList s (f :: fs) = loadList (load_frame s f) fs := by
      unfold loadList
      rw [List.foldl_cons]
    have h' : (load_frame s f).frame_count + fs.length ≤ MAX_FRAMES := by
      omega
    obtain ⟨ih1, ih2, ih3, ih4, ih5, ih6⟩ := ih (load_frame s f) h'
    rw [hstep]
    refine ⟨by omega, by rw [ih2, hload], by rw [ih3, hload],
      by rw [ih4, hload], ?_, ?_⟩
    · intro i hi
      rw [ih5 i (by omega), hbuf i, if_neg (by omega)]
    · intro j hj
      rcases j with _ | j
      · have hidx : s.frame_count + 0 = s.frame_count := rfl
        rw [hidx, ih5 s.frame_count (by omega), hbuf s.frame_count,
          if_pos rfl, List.getD_cons_zero]
      · have hidx : s.frame_count + (j + 1) = (load_frame s f).frame_count + j := by
          omega
        rw [hidx, ih6 j (by omega), List.getD_cons_succ]

lemma renderOf_agrees (fs : List Frame) (s : AnimState) (h : Agrees fs s)
    (hc : s.current_frame < fs.length) :
    renderOf s = expRender fs s.current_frame := by
  unfold renderOf expRender
  rw [h s.current_frame hc]

lemma tick_fire_last (s : AnimState) (now : Nat) (hrun : s.running = true)
    (hfc : s.frame_count ≠ 0) (hdue : ¬ now < s.next_time)
    (hlast : s.current_frame + 1 ≥ s.frame_count) :
    animation_tick s now =
      ({ s with running := false, frame_count := 0, current_frame := 0,
                next_time := nextDeadline s now }, some (renderOf s)) := by
  unfold animation_tick
  rw [if_neg (by simp [hrun, hfc]), if_neg hdue, if_pos hlast]

lemma tick_fire_mid (s : AnimState) (now : Nat) (hrun : s.running = true)
    (hfc : s.frame_count ≠ 0) (hdue : ¬ now < s.next_time)
    (hmid : ¬ s.current_frame + 1 ≥ s.frame_count) :
    animation_tick s now =
      ({ s with current_frame := s.current_frame + 1,
                next_time := nextDeadline s now }, some (renderOf s)) := by
  unfold animation_tick
  rw [if_neg (by simp [hrun, hfc]), if_neg hdue, if_neg hmid]

lemma runTicks_cons (s : AnimState) (t : Nat) (ts : List Nat) :
    runTicks s (t :: ts) =
      ((runTicks (animation_tick s t).1 ts).1,
        (animation_tick s t).2.toList ++ (runTicks (animation_tick s t).1 ts).2) :=
  rfl

/-- Any tick schedule from a playing state matching `fs` (or an inert state)
yields a contiguous run of expected renders starting at the cursor. -/
lemma runTicks_ordered (ts : List Nat) : ∀ (fs : List Frame) (s : AnimState),
    Agrees fs s →
    ((s.running = false ∨ s.frame_count = 0) ∨
      (s.running = true ∧ s.frame_count = fs.length ∧
        s.current_frame < fs.length)) →
    ∃ k, s.current_frame + k ≤ max fs.length s.current_frame ∧
      (runTicks s ts).2 = expFrom fs s.current_frame k := by
  induction ts with
  | nil =>
    intro fs s _ _
    exact ⟨0, by omega, rfl⟩
  | cons t ts ih =>
    intro fs s hag hcase
    rcases hcase with hinert | ⟨hrun, hfc, hcur⟩
    · rw [runTicks_inert (t :: ts) s hinert]
      exact ⟨0, by omega, rfl⟩
    · by_cases hdue : t < s.next_time
      · have hnoop : animation_tick s t = (s, none) :=
          tick_noop s t (Or.inr (Or.inr hdue))
        rw [runTicks_cons, hnoop]
        dsimp only
        obtain ⟨k, hk, htr⟩ := ih fs s hag (Or.inr ⟨hrun, hfc, hcur⟩)
        exact ⟨k, hk, by simpa using htr⟩
      · have hfc0 : s.frame_count ≠ 0 := by omega
        have hre := renderOf_agrees fs s hag hcur
        by_cases hlast : s.current_frame + 1 ≥ s.frame_count
        · have hfire := tick_fire_last s t hrun hfc0 hdue hlast
          rw [runTicks_cons, hfire]
          dsimp only
          rw [runTicks_inert ts _ (Or.inl rfl)]
          dsimp only
          refine ⟨1, by omega, ?_⟩
          show [renderOf s] = expFrom fs s.current_frame 1
          rw [hre]
          rfl
        · have hfire := tick_fire_mid s t hrun hfc0 hdue hlast
          rw [runTicks_cons, hfire]
          dsimp only
          have hag2 : Agrees fs
              ({ s with current_frame := s.current_frame + 1,
                        next_time := nextDeadline s t }) := hag
          obtain ⟨k, hk, htr⟩ := ih fs _ hag2 (Or.inr ⟨hrun, hfc, by
            show s.current_frame + 1 < fs.length
            omega⟩)
          dsimp only at hk htr
          refine ⟨k + 1, by omega, ?_⟩
          rw [htr, hre]
          rfl

/-- From a playing state matching `fs` there is a tick schedule (one tick at
each scheduled deadline) rendering all remaining frames. -/
lemma runTicks_complete (fs : List Frame) : ∀ (n : Nat) (s : AnimState),
    Agrees fs s → s.running = true → s.frame_count = fs.length →
    s.current_frame < fs.length → fs.length - s.current_frame = n →
    ∃ ts : List Nat, (runTicks s ts).2 = expFrom fs s.current_frame n := by
  intro n
  induction n with
  | zero =>
    intro s _ _ _ hcur hn
    omega
  | succ n ih =>
    intro s hag hrun hfc hcur hn
    have hfc0 : s.frame_count ≠ 0 := by omega
    have hdue : ¬ s.next_time < s.next_time := lt_irrefl _
    have hre := renderOf_agrees fs s hag hcur
    by_cases hlast : s.current_frame + 1 ≥ s.frame_count
    · have hn0 : n = 0 := by omega
      subst hn0
      refine ⟨[s.next_time], ?_⟩
      rw [runTicks_cons, tick_fire_last s s.next_time hrun hfc0 hdue hlast]
      dsimp only
      show [renderOf s] = expFrom fs s.current_frame 1
      rw [hre]
      rfl
    · have hfire := tick_fire_mid s s.next_time hrun hfc0 hdue hlast
      obtain ⟨ts, hts⟩ := ih
        ({ s with current_frame := s.current_frame + 1,
                  next_time := nextDeadline s s.next_time })
        hag hrun hfc (by show s.current_frame + 1 < fs.length; omega)
        (by show fs.length - (s.current_frame + 1) = n; omega)
      refine ⟨s.next_time :: ts, ?_⟩
      rw [runTicks_cons, hfire]
      dsimp only
      rw [hts, hre]
      rfl

lemma expFrom_eq_map_range' (fs : List Frame) : ∀ (k c : Nat),
    expFrom fs c k = (List.range' c k).map (expRender fs) := by
  intro k
  induction k with
  | zero => intro c; rfl
  | succ k ih =>
    intro c
    rw [List.range'_succ, List.map_cons]
    show expRender fs c :: expFrom fs (c + 1) k = _
    rw [ih (c + 1)]

/-- C1: after any `N ≤ MAX_FRAMES` `load_frame` calls from boot followed by
`play_animation`, every tick schedule renders an initial prefix of frames
`0..N-1` in ingestion order (no reordering, skipping or duplication), and
some tick schedule renders all of `0..N-1`, each exactly once. -/
theorem claim_C1 (fs : List Frame) (t0 : Nat) (hlen : fs.length ≤ MAX_FRAMES) :
    (∀ ts : List Nat, ∃ k, k ≤ fs.length ∧
        (runTicks (play_animation (loadList initState fs) t0) ts).2 =
          (List.range k).map (expRender fs)) ∧
    (∃ ts : List Nat,
        (runTicks (play_animation (loadList initState fs) t0) ts).2 =
          (List.range fs.length).map (expRender fs)) := by
  obtain ⟨h1, h2, h3, h4, h5, h6⟩ := loadList_spec fs initState (by
    show 0 + fs.length ≤ MAX_FRAMES
    simpa using hlen)
  have hag : Agrees fs (play_animation (loadList initState fs) t0) := by
    intro i hi
    show (loadList initState fs).buf i = fs.getD i zeroFrame
    have h := h6 i hi
    have h0 : initState.frame_count = 0 := rfl
    rw [h0, Nat.zero_add] at h
    exact h
  have hfc1 : (play_animation (loadList initState fs) t0).frame_count =
      fs.length := by
    show (loadList initState fs).frame_count = fs.length
    rw [h1]
    simp [initState]
  have hcur : (play_animation (loadList initState fs) t0).current_frame = 0 :=
    rfl
  constructor
  · intro ts
    by_cases hfs : fs.length = 0
    · rw [runTicks_inert ts _ (Or.inr (by rw [hfc1, hfs]))]
      exact ⟨0, by omega, by simp⟩
    · obtain ⟨k, hk, htr⟩ := runTicks_ordered ts fs _ hag
        (Or.inr ⟨rfl, hfc1, by show (0 : Nat) < fs.length; omega⟩)
      rw [hcur] at hk htr
      refine ⟨k, by omega, ?_⟩
      rw [htr, expFrom_eq_map_range' fs k 0, ← List.range_eq_range']
  · by_cases hfs : fs.length = 0
    · exact ⟨[], by simp [runTicks, runTrace, hfs]⟩
    · obtain ⟨ts, hts⟩ := runTicks_complete fs fs.length _ hag rfl hfc1
        (by show (0 : Nat) < fs.length; omega)
        (by show fs.length - 0 = fs.length; omega)
      rw [hcur] at hts
      exact ⟨ts, by
        rw [hts, expFrom_eq_map_range' fs fs.length 0, ← List.range_eq_range']⟩

/-- C1 witness: the guarantee instantiated for a single loaded frame. -/
theorem claim_C1_witness :
    ([(⟨1, 2, 3, 4, 5⟩ : Frame)].length ≤ MAX_FRAMES) ∧
    ((∀ ts : List Nat, ∃ k, k ≤ [(⟨1, 2, 3, 4, 5⟩ : Frame)].length ∧
        (runTicks (play_animation (loadList initState [⟨1, 2, 3, 4, 5⟩]) 0) ts).2 =
          (List.range k).map (expRender [⟨1, 2, 3, 4, 5⟩])) ∧
      (∃ ts : List Nat,
        (runTicks (play_animation (loadList initState [⟨1, 2, 3, 4, 5⟩]) 0) ts).2 =
          (List.range [(⟨1, 2, 3, 4, 5⟩ : Frame)].length).map
            (expRender [⟨1, 2, 3, 4, 5⟩]))) :=
  ⟨by decide, claim_C1 [⟨1, 2, 3, 4, 5⟩] 0 (by decide)⟩

end LedMatrixPainter
